import Mathlib

/-!
Shallow embedding of the FM demodulation pipeline of `src/main.c` (FMrec).

Raw bytes are modelled as `ℕ` (the C `uint8_t` values), all floating-point
arithmetic is idealised over `ℝ`, and the in-place C buffers become lists:
a C function that overwrites a prefix of a caller buffer is modelled as a
function returning the new buffer contents (written prefix followed by the
untouched suffix of the old contents).
-/

noncomputable section

namespace FMrec

/-- Macro SAMPLE_RATE = 960000. -/
def SAMPLE_RATE : ℕ := 960000

/-- Macro AUDIO_RATE = 48000. -/
def AUDIO_RATE : ℕ := 48000

/-- Macro DECIMATION_FACTOR = SAMPLE_RATE / AUDIO_RATE. -/
def DECIMATION_FACTOR : ℕ := SAMPLE_RATE / AUDIO_RATE

/-- Macro BUFFER_SIZE = 16 * 16384. -/
def BUFFER_SIZE : ℕ := 16 * 16384

/-- Macro TAU = 0.000050 (the 50 µs de-emphasis time constant). -/
def TAU : ℝ := 0.000050

/-- Function `convert_value`: center a raw byte around zero. -/
def convert_value (value : ℕ) : ℝ := (value : ℝ) - 127.5

/-- C's `atan2(y, x)`, idealised over the reals as the argument of the
complex number `x + y i`, valued in `(-π, π]`. -/
def atan2 (y x : ℝ) : ℝ := Complex.arg ⟨x, y⟩

/-- Function `get_instant_freq`: phase difference of two consecutive I/Q pairs with a
single ±2π unwrapping correction. -/
def get_instant_freq (i1 q1 i2 q2 : ℝ) : ℝ :=
  let phase1 := atan2 q1 i1
  let phase2 := atan2 q2 i2
  let instant_freq := phase2 - phase1
  if instant_freq > Real.pi then instant_freq - 2 * Real.pi
  else if instant_freq < -Real.pi then instant_freq + 2 * Real.pi
  else instant_freq

/-- The sequence of values written by the loop of `get_freq_values`:
`freq_samples[i] = get_instant_freq(i[i], q[i], i[i+1], q[i+1])` for
`i = 0 .. len-2`. -/
def freq_of (i_samples q_samples : List ℝ) (k : ℕ) : ℝ :=
  get_instant_freq (i_samples.getD k 0) (q_samples.getD k 0)
    (i_samples.getD (k + 1) 0) (q_samples.getD (k + 1) 0)

/-- The `len - 1` values produced by the `get_freq_values` loop. -/
def freq_values (i_samples q_samples : List ℝ) (len : ℕ) : List ℝ :=
  (List.range (len - 1)).map (freq_of i_samples q_samples)

/-- Function `get_freq_values`: overwrites `freq_samples[0 .. len-2]` with the
discriminator output, leaving the rest of the buffer untouched. -/
def get_freq_values (freq_samples i_samples q_samples : List ℝ) (len : ℕ) : List ℝ :=
  freq_values i_samples q_samples len ++ freq_samples.drop (len - 1)

/-- Local `alpha` of `deemphasize_filter`:
`alpha = 1.0 - exp(-(1.0/(TAU * SAMPLE_RATE)))`. -/
def alpha : ℝ := 1 - Real.exp (-(1 / (TAU * (SAMPLE_RATE : ℝ))))

/-- The loop of `deemphasize_filter`: each output is
`alpha * in + (1 - alpha) * previous output`, the first previous output
being `last_sample`. -/
def deemph_go (a : ℝ) : ℝ → List ℝ → List ℝ
  | _, [] => []
  | prev, x :: xs => (a * x + (1 - a) * prev) :: deemph_go a (a * x + (1 - a) * prev) xs

/-- Function `deemphasize_filter`: in-place exponential moving average over the first
`len` samples of the buffer. -/
def deemphasize_filter (freq_samples : List ℝ) (last_sample : ℝ) (len : ℕ) : List ℝ :=
  deemph_go alpha last_sample (freq_samples.take len) ++ freq_samples.drop len

/-- Constant R = 0.99 of `dc_block_filter`. -/
def R : ℝ := 0.99

/-- The loop of `dc_block_filter`: `out[i] = in[i] - last + R * out[i-1]`
where `last` is the previous (unfiltered) input sample. -/
def dc_go : ℝ → ℝ → List ℝ → List ℝ
  | _, _, [] => []
  | last, prev_out, x :: xs =>
      (x - last + R * prev_out) :: dc_go x (x - last + R * prev_out) xs

/-- Function `dc_block_filter`: in-place DC-blocking high-pass over the first `len`
samples; the first sample is left unchanged and seeds both `last` and the
previous output. -/
def dc_block_filter (samples_buffer : List ℝ) (len : ℕ) : List ℝ :=
  match samples_buffer.take len with
  | [] => samples_buffer
  | x :: xs => (x :: dc_go x x xs) ++ samples_buffer.drop len

/-- The `i_samples` array filled by the extraction loop of `demodulate`
(the loop runs for `j = 0, 2, ...` while `j < len`, i.e. `⌈len/2⌉` times). -/
def i_samples_of (buffer : List ℕ) (len : ℕ) : List ℝ :=
  (List.range ((len + 1) / 2)).map fun k => convert_value (buffer.getD (2 * k) 0)

/-- The `q_samples` array filled by the extraction loop of `demodulate`. -/
def q_samples_of (buffer : List ℕ) (len : ℕ) : List ℝ :=
  (List.range ((len + 1) / 2)).map fun k => convert_value (buffer.getD (2 * k + 1) 0)

/-- Function `demodulate`: split the raw buffer into I and Q samples, run the
discriminator, the de-emphasis filter and the DC-block filter over the
`freq_samples` buffer, and return the new buffer contents together with the
returned carry `freq_samples[len/2 - 1]`. -/
def demodulate (freq_samples : List ℝ) (last_sample : ℝ) (buffer : List ℕ) (len : ℕ) :
    List ℝ × ℝ :=
  let i_samples := i_samples_of buffer len
  let q_samples := q_samples_of buffer len
  let f1 := get_freq_values freq_samples i_samples q_samples (len / 2)
  let f2 := deemphasize_filter f1 last_sample (len / 2)
  let f3 := dc_block_filter f2 (len / 2)
  (f3, f3.getD (len / 2 - 1) 0)

/-- Function `decimate`: keep every `DECIMATION_FACTOR`-th sample; returns the
decimated samples and their count `len / DECIMATION_FACTOR`. -/
def decimate (freq_samples : List ℝ) (len : ℕ) : List ℝ × ℕ :=
  ((List.range (len / DECIMATION_FACTOR)).map fun i =>
      freq_samples.getD (i * DECIMATION_FACTOR) 0,
    len / DECIMATION_FACTOR)

/-- One sample of `convert_samples`: scale by `GAIN = 32767.0`, clip to
`[-32768, 32767]` on the float, then truncate toward zero as the C cast
`(int16_t)res` does. -/
def convert_sample (s : ℝ) : ℤ :=
  let res := s * 32767
  let clipped := if res > 32767 then (32767 : ℝ) else if res < -32768 then -32768 else res
  if clipped < 0 then Int.ceil clipped else Int.floor clipped

/-- Function `convert_samples` over a whole buffer. -/
def convert_samples (samples : List ℝ) : List ℤ := samples.map convert_sample

/-! ### Helper lemmas -/

lemma getD_map_range (f : ℕ → ℝ) (n j : ℕ) :
    ((List.range n).map f).getD j 0 = if j < n then f j else 0 := by
  rcases lt_or_ge j n with h | h
  · rw [if_pos h, List.getD_eq_getElem _ _ (by simpa using h)]
    simp
  · rw [if_neg (not_lt.mpr h)]
    exact List.getD_eq_default _ _ (by simpa using h)

lemma deemph_go_length (a : ℝ) : ∀ (prev : ℝ) (l : List ℝ),
    (deemph_go a prev l).length = l.length
  | _, [] => rfl
  | prev, x :: xs => by
      simp [deemph_go, deemph_go_length a _ xs]

lemma dc_go_length : ∀ (last prev : ℝ) (l : List ℝ),
    (dc_go last prev l).length = l.length
  | _, _, [] => rfl
  | last, prev, x :: xs => by
      simp [dc_go, dc_go_length _ _ xs]

lemma deemph_go_getD (a : ℝ) : ∀ (l : List ℝ) (prev : ℝ) (i : ℕ), i < l.length →
    (deemph_go a prev l).getD i 0 =
      a * l.getD i 0 + (1 - a) * (if i = 0 then prev else (deemph_go a prev l).getD (i - 1) 0)
  | [], _, i, h => absurd h (by simp)
  | x :: xs, prev, 0, _ => by simp [deemph_go]
  | x :: xs, prev, (i + 1), h => by
      have ih := deemph_go_getD a xs (a * x + (1 - a) * prev) i (by simpa using h)
      simp only [deemph_go, List.getD_eq_getElem?_getD, List.getElem?_cons_succ,
        Nat.add_sub_cancel] at ih ⊢
      rw [ih]
      cases i with
      | zero => simp [deemph_go]
      | succ j => simp [deemph_go]

lemma dc_go_getD : ∀ (l : List ℝ) (last prev : ℝ) (i : ℕ), i < l.length →
    (dc_go last prev l).getD i 0 =
      l.getD i 0 - (if i = 0 then last else l.getD (i - 1) 0)
        + R * (if i = 0 then prev else (dc_go last prev l).getD (i - 1) 0)
  | [], _, _, i, h => absurd h (by simp)
  | x :: xs, last, prev, 0, _ => by simp [dc_go]
  | x :: xs, last, prev, (i + 1), h => by
      have ih := dc_go_getD xs x (x - last + R * prev) i (by simpa using h)
      simp only [dc_go, List.getD_eq_getElem?_getD, List.getElem?_cons_succ,
        Nat.add_sub_cancel] at ih ⊢
      rw [ih]
      cases i with
      | zero => simp [dc_go]
      | succ j => simp [dc_go]

lemma deemph_go_replicate (a v : ℝ) : ∀ n : ℕ,
    deemph_go a v (List.replicate n v) = List.replicate n v
  | 0 => rfl
  | n + 1 => by
      have hv : a * v + (1 - a) * v = v := by ring
      simp [List.replicate_succ, deemph_go, hv, deemph_go_replicate a v n]

lemma tau_rate : TAU * (SAMPLE_RATE : ℝ) = 48 := by
  norm_num [TAU, SAMPLE_RATE]

lemma alpha_pos : 0 < alpha := by
  have h : (-(1 / (TAU * (SAMPLE_RATE : ℝ)))) < 0 := by
    rw [tau_rate]; norm_num
  have := Real.exp_lt_one_iff.mpr h
  unfold alpha
  linarith

lemma freq_values_length (ii qq : List ℝ) (len : ℕ) :
    (freq_values ii qq len).length = len - 1 := by
  simp [freq_values]

lemma get_freq_values_length (freq ii qq : List ℝ) (len : ℕ) (h : len - 1 ≤ freq.length) :
    (get_freq_values freq ii qq len).length = freq.length := by
  simp only [get_freq_values, List.length_append, freq_values_length, List.length_drop]
  omega

lemma deemphasize_filter_length (l : List ℝ) (last : ℝ) (len : ℕ) :
    (deemphasize_filter l last len).length = l.length := by
  simp only [deemphasize_filter, List.length_append, deemph_go_length,
    List.length_take, List.length_drop]
  omega

lemma dc_block_filter_length (l : List ℝ) (len : ℕ) :
    (dc_block_filter l len).length = l.length := by
  unfold dc_block_filter
  split
  · rfl
  · next x xs heq =>
      have h1 : (l.take len).length = xs.length + 1 := by rw [heq]; simp
      simp only [List.length_take] at h1
      simp only [List.length_append, List.length_cons, dc_go_length, List.length_drop]
      omega

lemma f0_ne_zero : get_instant_freq 0.5 0.5 0.5 (-0.5) ≠ 0 := by
  have h1 : 0 ≤ Complex.arg ⟨0.5, 0.5⟩ := Complex.arg_nonneg_iff.mpr (by norm_num)
  have h1' : Complex.arg ⟨0.5, 0.5⟩ ≠ 0 := by
    rw [Ne, Complex.arg_eq_zero_iff]
    push_neg
    intro _
    norm_num
  have h1'' : 0 < Complex.arg ⟨0.5, 0.5⟩ := lt_of_le_of_ne h1 (Ne.symm h1')
  have h2 : Complex.arg ⟨0.5, -0.5⟩ < 0 := Complex.arg_neg_iff.mpr (by norm_num)
  have hb1 : Complex.arg ⟨0.5, 0.5⟩ ≤ Real.pi := Complex.arg_le_pi _
  have hb2 : -Real.pi < Complex.arg ⟨0.5, -0.5⟩ := Complex.neg_pi_lt_arg _
  have hπ := Real.pi_pos
  simp only [get_instant_freq, atan2]
  split_ifs with hgt hlt
  · intro hz; linarith
  · intro hz; linarith
  · intro hz; linarith

/-! ### Claim theorems -/

/-- C4: for every non-empty frequency-sample sequence and carried value
`last_sample`, the de-emphasis filter computes
`out[0] = alpha*in[0] + (1-alpha)*last_sample` and
`out[i] = alpha*in[i] + (1-alpha)*out[i-1]` for `i ≥ 1`, with
`alpha = 1 - exp(-1/(tau*sample_rate))` for `tau = 50 µs` and
`sample_rate = 960000`, the pre-decimation capture rate. -/
theorem deemphasis_filter_spec (l : List ℝ) (last_sample : ℝ) (h : l ≠ []) :
    alpha = 1 - Real.exp (-(1 / (0.000050 * 960000))) ∧
    (deemphasize_filter l last_sample l.length).getD 0 0 =
      alpha * l.getD 0 0 + (1 - alpha) * last_sample ∧
    ∀ i, 1 ≤ i → i < l.length →
      (deemphasize_filter l last_sample l.length).getD i 0 =
        alpha * l.getD i 0 +
          (1 - alpha) * (deemphasize_filter l last_sample l.length).getD (i - 1) 0 := by
  have hfilter : deemphasize_filter l last_sample l.length = deemph_go alpha last_sample l := by
    simp [deemphasize_filter]
  refine ⟨?_, ?_, ?_⟩
  · unfold alpha
    rw [tau_rate]
    norm_num
  · rw [hfilter]
    cases l with
    | nil => exact absurd rfl h
    | cons x xs => simp [deemph_go]
  · intro i h1 h2
    rw [hfilter]
    rw [deemph_go_getD alpha l last_sample i h2, if_neg (by omega)]

/-- C4 witness: the recurrence instantiated on the buffer `[1, 2]` with
carry `3` at index `1`. -/
theorem deemphasis_filter_spec_witness :
    (deemphasize_filter [1, 2] 3 ([1, 2] : List ℝ).length).getD 1 0 =
      alpha * ([1, 2] : List ℝ).getD 1 0 +
        (1 - alpha) * (deemphasize_filter [1, 2] 3 ([1, 2] : List ℝ).length).getD 0 0 :=
  (deemphasis_filter_spec [1, 2] 3 (by simp)).2.2 1 (by norm_num) (by norm_num)

/-- C5: for every non-empty input sequence, the DC-block filter leaves
`out[0] = in[0]` unchanged and for `i ≥ 1` computes
`out[i] = in[i] - in[i-1] + 0.99*out[i-1]`, where the subtracted value is
the unfiltered previous input sample; the filter is a pure function of the
buffer alone (its `last` seed is the buffer's own first sample, so no state
persists across calls). -/
theorem dc_block_filter_spec (l : List ℝ) (h : l ≠ []) :
    (dc_block_filter l l.length).getD 0 0 = l.getD 0 0 ∧
    ∀ i, 1 ≤ i → i < l.length →
      (dc_block_filter l l.length).getD i 0 =
        l.getD i 0 - l.getD (i - 1) 0 + 0.99 * (dc_block_filter l l.length).getD (i - 1) 0 := by
  cases l with
  | nil => exact absurd rfl h
  | cons x xs =>
      have hfilter : dc_block_filter (x :: xs) (x :: xs).length = x :: dc_go x x xs := by
        simp [dc_block_filter]
      refine ⟨by rw [hfilter]; simp, ?_⟩
      intro i h1 h2
      obtain ⟨j, rfl⟩ : ∃ j, i = j + 1 := ⟨i - 1, by omega⟩
      rw [hfilter]
      have hj : j < xs.length := by simpa using h2
      have hgo := dc_go_getD xs x x j hj
      have hR : R = (0.99 : ℝ) := rfl
      rw [hR] at hgo
      simp only [List.getD_eq_getElem?_getD, List.getElem?_cons_succ, Nat.add_sub_cancel] at hgo ⊢
      rw [hgo]
      cases j with
      | zero => simp
      | succ k => simp

/-- C5 witness: the recurrence instantiated on the buffer `[1, 2]` at
index `1`. -/
theorem dc_block_filter_spec_witness :
    (dc_block_filter [1, 2] ([1, 2] : List ℝ).length).getD 1 0 =
      ([1, 2] : List ℝ).getD 1 0 - ([1, 2] : List ℝ).getD 0 0 +
        0.99 * (dc_block_filter [1, 2] ([1, 2] : List ℝ).length).getD 0 0 :=
  (dc_block_filter_spec [1, 2] (by simp)).2 1 (by norm_num) (by norm_num)

/-- C9: a constant value `v` is a fixed point of the de-emphasis filter:
on a constant buffer of value `v` with carry `v` every output sample is
`v`, and repeated application leaves the constant buffer unchanged. -/
theorem deemphasis_constant_fixed_point (n : ℕ) (v : ℝ) :
    deemphasize_filter (List.replicate n v) v n = List.replicate n v ∧
    ∀ k : ℕ, (fun l => deemphasize_filter l v n)^[k] (List.replicate n v) =
      List.replicate n v := by
  have hbase : deemphasize_filter (List.replicate n v) v n = List.replicate n v := by
    simp [deemphasize_filter, deemph_go_replicate]
  refine ⟨hbase, ?_⟩
  intro k
  induction k with
  | zero => rfl
  | succ m ih => rw [Function.iterate_succ_apply', ih]; exact hbase

/-- C6: the decimator keeps every 20th sample: it outputs exactly
`⌊len/20⌋` samples with `output[k] = input[k*DECIMATION_FACTOR]`, the
trailing `len mod 20` inputs being dropped; on an input of length `100` it
produces exactly the 5 samples at indices `0, 20, 40, 60, 80`. -/
theorem decimate_spec (l : List ℝ) :
    DECIMATION_FACTOR = 20 ∧
    (decimate l l.length).2 = l.length / DECIMATION_FACTOR ∧
    (decimate l l.length).1.length = l.length / DECIMATION_FACTOR ∧
    (∀ k, k < l.length / DECIMATION_FACTOR →
      (decimate l l.length).1.getD k 0 = l.getD (k * DECIMATION_FACTOR) 0) ∧
    (l.length = 100 →
      (decimate l l.length).1 =
        [l.getD 0 0, l.getD 20 0, l.getD 40 0, l.getD 60 0, l.getD 80 0]) := by
  refine ⟨rfl, rfl, by simp [decimate], ?_, ?_⟩
  · intro k hk
    simp only [decimate]
    rw [getD_map_range, if_pos hk]
  · intro h100
    simp [decimate, h100, show DECIMATION_FACTOR = 20 from rfl, List.range_succ]

/-- C6 witness: the decimator on a concrete buffer of length 100. -/
theorem decimate_spec_witness :
    (List.replicate 100 (7 : ℝ)).length = 100 ∧
    (decimate (List.replicate 100 (7 : ℝ)) (List.replicate 100 (7 : ℝ)).length).1.getD 4 0 =
      (List.replicate 100 (7 : ℝ)).getD (4 * DECIMATION_FACTOR) 0 ∧
    (decimate (List.replicate 100 (7 : ℝ)) (List.replicate 100 (7 : ℝ)).length).1 =
      [(List.replicate 100 (7 : ℝ)).getD 0 0, (List.replicate 100 (7 : ℝ)).getD 20 0,
       (List.replicate 100 (7 : ℝ)).getD 40 0, (List.replicate 100 (7 : ℝ)).getD 60 0,
       (List.replicate 100 (7 : ℝ)).getD 80 0] :=
  ⟨by simp,
   (decimate_spec (List.replicate 100 (7 : ℝ))).2.2.2.1 4 (by simp [DECIMATION_FACTOR, SAMPLE_RATE, AUDIO_RATE]),
   (decimate_spec (List.replicate 100 (7 : ℝ))).2.2.2.2 (by simp)⟩

/-- C7: the quantizer scales by `32767.0`, clamps the floating-point result
to `[-32768, 32767]` before converting to a 16-bit signed integer, so
every output lies in `[-32768, 32767]`; input `1.5` yields `32767`, input
`-2.0` yields `-32768`, and input `0.0` yields `0`. -/
theorem quantizer_spec :
    (∀ s : ℝ, -32768 ≤ convert_sample s ∧ convert_sample s ≤ 32767) ∧
    convert_sample 1.5 = 32767 ∧ convert_sample (-2) = -32768 ∧ convert_sample 0 = 0 := by
  refine ⟨?_, ?_, ?_, ?_⟩
  · intro s
    simp only [convert_sample]
    have hc : ((-32768 : ℝ)) = ((-32768 : ℤ) : ℝ) := by norm_num
    have hc' : ((32767 : ℝ)) = ((32767 : ℤ) : ℝ) := by norm_num
    split_ifs with h1 h2 h3 h4 h5
    · rw [hc', Int.ceil_intCast]; constructor <;> norm_num
    · rw [hc', Int.floor_intCast]; constructor <;> norm_num
    · rw [hc, Int.ceil_intCast]; constructor <;> norm_num
    · rw [hc, Int.floor_intCast]; constructor <;> norm_num
    · push_neg at h1 h3
      refine ⟨?_, ?_⟩
      · have hle : ((-32768 : ℤ) : ℝ) ≤ (⌈s * 32767⌉ : ℝ) := by
          push_cast
          exact le_trans (by linarith) (Int.le_ceil _)
        exact_mod_cast hle
      · rw [Int.ceil_le]
        push_cast
        linarith
    · push_neg at h1 h3 h5
      refine ⟨?_, ?_⟩
      · rw [Int.le_floor]
        push_cast
        linarith
      · have hle : ((⌊s * 32767⌋ : ℝ)) ≤ ((32767 : ℤ) : ℝ) := by
          push_cast
          exact le_trans (Int.floor_le _) (by linarith)
        exact_mod_cast hle
  · unfold convert_sample
    norm_num
  · unfold convert_sample
    norm_num
    rw [show ((-32768 : ℝ)) = ((-32768 : ℤ) : ℝ) by norm_num, Int.ceil_intCast]
  · unfold convert_sample
    norm_num

/-- C3: for a buffer of `2N` raw bytes the discriminator produces exactly
`N - 1` frequency samples, where sample `k` is
`atan2(Q[k+1], I[k+1]) - atan2(Q[k], I[k])` adjusted by exactly one
addition or subtraction of `2π` when that difference exceeds `π` in
magnitude, and unadjusted otherwise. -/
theorem discriminator_spec (buffer : List ℕ) (N : ℕ) (hN : 1 ≤ N)
    (h : buffer.length = 2 * N) :
    (freq_values (i_samples_of buffer (2 * N)) (q_samples_of buffer (2 * N)) N).length =
      N - 1 ∧
    ∀ k, k < N - 1 → ∀ d : ℝ,
      d = atan2 (convert_value (buffer.getD (2 * (k + 1) + 1) 0))
            (convert_value (buffer.getD (2 * (k + 1)) 0)) -
          atan2 (convert_value (buffer.getD (2 * k + 1) 0))
            (convert_value (buffer.getD (2 * k) 0)) →
      ((|d| ≤ Real.pi →
        (freq_values (i_samples_of buffer (2 * N)) (q_samples_of buffer (2 * N)) N).getD k 0 =
          d) ∧
       (Real.pi < d →
        (freq_values (i_samples_of buffer (2 * N)) (q_samples_of buffer (2 * N)) N).getD k 0 =
          d - 2 * Real.pi) ∧
       (d < -Real.pi →
        (freq_values (i_samples_of buffer (2 * N)) (q_samples_of buffer (2 * N)) N).getD k 0 =
          d + 2 * Real.pi)) := by
  refine ⟨freq_values_length _ _ _, ?_⟩
  intro k hk d hd
  have h2N : (2 * N + 1) / 2 = N := by omega
  have hik : (i_samples_of buffer (2 * N)).getD k 0 = convert_value (buffer.getD (2 * k) 0) := by
    rw [i_samples_of, h2N, getD_map_range, if_pos (by omega)]
  have hik1 : (i_samples_of buffer (2 * N)).getD (k + 1) 0 =
      convert_value (buffer.getD (2 * (k + 1)) 0) := by
    rw [i_samples_of, h2N, getD_map_range, if_pos (by omega)]
  have hqk : (q_samples_of buffer (2 * N)).getD k 0 =
      convert_value (buffer.getD (2 * k + 1) 0) := by
    rw [q_samples_of, h2N, getD_map_range, if_pos (by omega)]
  have hqk1 : (q_samples_of buffer (2 * N)).getD (k + 1) 0 =
      convert_value (buffer.getD (2 * (k + 1) + 1) 0) := by
    rw [q_samples_of, h2N, getD_map_range, if_pos (by omega)]
  have hout : (freq_values (i_samples_of buffer (2 * N)) (q_samples_of buffer (2 * N)) N).getD
      k 0 = get_instant_freq (convert_value (buffer.getD (2 * k) 0))
        (convert_value (buffer.getD (2 * k + 1) 0))
        (convert_value (buffer.getD (2 * (k + 1)) 0))
        (convert_value (buffer.getD (2 * (k + 1) + 1) 0)) := by
    rw [freq_values, getD_map_range, if_pos hk, freq_of, hik, hqk, hik1, hqk1]
  subst hd
  rw [hout]
  simp only [get_instant_freq]
  have hπ := Real.pi_pos
  refine ⟨?_, ?_, ?_⟩
  · intro habs
    rw [abs_le] at habs
    rw [if_neg (by push_neg; linarith [habs.2]), if_neg (by push_neg; linarith [habs.1])]
  · intro hgt
    rw [if_pos hgt]
  · intro hlt
    rw [if_neg (by push_neg; linarith), if_pos hlt]

/-- C3 witness: the discriminator on the concrete 4-byte buffer
`[128, 128, 128, 127]` produces exactly one frequency sample. -/
theorem discriminator_spec_witness :
    (freq_values (i_samples_of [128, 128, 128, 127] (2 * 2))
      (q_samples_of [128, 128, 128, 127] (2 * 2)) 2).length = 2 - 1 :=
  (discriminator_spec [128, 128, 128, 127] 2 (by norm_num) (by norm_num)).1

/-- C8 counterexample: at the I/Q inputs `(I1, Q1) = (-1, 0)` and
`(I2, Q2) = (1, 0)` the phase goes from `π` to `0`, the raw difference
`-π` does not exceed `π` in magnitude, so it is returned unadjusted and
the output `-π` is NOT in the half-open interval `(-π, π]`. -/
theorem freq_range_counterexample :
    get_instant_freq (-1) 0 1 0 ∉ Set.Ioc (-Real.pi) Real.pi := by
  have h1 : atan2 0 (-1) = Real.pi := by
    show Complex.arg ⟨-1, 0⟩ = Real.pi
    have he : (⟨-1, 0⟩ : ℂ) = -1 := by
      apply Complex.ext <;> simp
    rw [he, Complex.arg_neg_one]
  have h2 : atan2 0 1 = 0 := by
    show Complex.arg ⟨1, 0⟩ = 0
    have he : (⟨1, 0⟩ : ℂ) = 1 := by
      apply Complex.ext <;> simp
    rw [he, Complex.arg_one]
  have hπ := Real.pi_pos
  have heval : get_instant_freq (-1) 0 1 0 = -Real.pi := by
    simp only [get_instant_freq, h1, h2]
    rw [if_neg (by push_neg; linarith), if_neg (by push_neg; linarith)]
    ring
  rw [heval]
  intro hmem
  exact absurd hmem.1 (lt_irrefl _)

/-- C8 amended: every frequency sample produced by the discriminator lies
in the CLOSED interval `[-π, π]` (the endpoint `-π` is attainable, so the
interval cannot be taken half-open). -/
theorem freq_range_amended (i1 q1 i2 q2 : ℝ) :
    get_instant_freq i1 q1 i2 q2 ∈ Set.Icc (-Real.pi) Real.pi := by
  obtain ⟨h1l, h1r⟩ := Complex.arg_mem_Ioc (⟨i1, q1⟩ : ℂ)
  obtain ⟨h2l, h2r⟩ := Complex.arg_mem_Ioc (⟨i2, q2⟩ : ℂ)
  have hπ := Real.pi_pos
  rw [Set.mem_Icc]
  simp only [get_instant_freq, atan2]
  split_ifs with ha hb
  · constructor <;> linarith
  · constructor <;> linarith
  · push_neg at ha hb
    constructor <;> linarith

/-- Symbolic evaluation of `demodulate` on the 4-byte buffer
`[128, 128, 128, 127]` with carry 0 and pre-existing `freq_samples`
contents `[0, c]`: the returned carry, as a function of the stale slot
value `c`. -/
lemma demod4_carry (c : ℝ) :
    (demodulate [0, c] 0 [128, 128, 128, 127] 4).2 =
      alpha * c + (1 - alpha) * (alpha * get_instant_freq 0.5 0.5 0.5 (-0.5)) -
        alpha * get_instant_freq 0.5 0.5 0.5 (-0.5) +
        R * (alpha * get_instant_freq 0.5 0.5 0.5 (-0.5)) := by
  have h1 : (128 : ℝ) - 127.5 = 0.5 := by norm_num
  have h2 : (127 : ℝ) - 127.5 = -0.5 := by norm_num
  simp [demodulate, i_samples_of, q_samples_of, get_freq_values, freq_values, freq_of,
    deemphasize_filter, dc_block_filter, deemph_go, dc_go, convert_value, List.range_succ,
    h1, h2]

/-- Symbolic evaluation of the de-emphasis stage alone on the same 4-byte
buffer: the final (index 1) output sample of the de-emphasis filter. -/
lemma demod4_deemph_final :
    (deemphasize_filter (get_freq_values [0, (0 : ℝ)] (i_samples_of [128, 128, 128, 127] 4)
      (q_samples_of [128, 128, 128, 127] 4) 2) 0 2).getD 1 0 =
      (1 - alpha) * (alpha * get_instant_freq 0.5 0.5 0.5 (-0.5)) := by
  have h1 : (128 : ℝ) - 127.5 = 0.5 := by norm_num
  have h2 : (127 : ℝ) - 127.5 = -0.5 := by norm_num
  simp [i_samples_of, q_samples_of, get_freq_values, freq_values, freq_of,
    deemphasize_filter, deemph_go, convert_value, List.range_succ, h1, h2]

/-- C1 counterexample: on the raw buffer `[128, 128, 128, 127]` with
carry 0 and `freq_samples` previously holding `[0, 0]`, the carry
returned by `demodulate` differs from the final output sample of the
de-emphasis stage (the DC-block stage overwrites the buffer afterwards). -/
theorem carry_counterexample :
    (demodulate [0, 0] 0 [128, 128, 128, 127] 4).2 ≠
      (deemphasize_filter (get_freq_values [0, (0 : ℝ)] (i_samples_of [128, 128, 128, 127] 4)
        (q_samples_of [128, 128, 128, 127] 4) 2) 0 2).getD 1 0 := by
  rw [demod4_carry 0, demod4_deemph_final]
  have hR : R = (0.99 : ℝ) := rfl
  rw [hR]
  intro h
  have hαf : alpha * get_instant_freq 0.5 0.5 0.5 (-0.5) = 0 := by
    linear_combination (-100 : ℝ) * h
  rcases mul_eq_zero.mp hαf with h' | h'
  · exact absurd h' (ne_of_gt alpha_pos)
  · exact f0_ne_zero h'

/-- C1 amended: the carried filter state returned by `demodulate` equals
the final output sample of the DC-BLOCK stage for that buffer (the last
element of the in-place buffer after both filters have run), not of the
de-emphasis stage. -/
theorem demodulate_carry_is_dc_block_output (freq0 : List ℝ) (last : ℝ) (buffer : List ℕ)
    (len : ℕ) (h : freq0.length = len / 2) (h1 : 1 ≤ len / 2) :
    (demodulate freq0 last buffer len).1 =
      dc_block_filter (deemphasize_filter (get_freq_values freq0 (i_samples_of buffer len)
        (q_samples_of buffer len) (len / 2)) last (len / 2)) (len / 2) ∧
    (demodulate freq0 last buffer len).2 =
      (demodulate freq0 last buffer len).1.getD
        ((demodulate freq0 last buffer len).1.length - 1) 0 := by
  refine ⟨rfl, ?_⟩
  have hlen : (demodulate freq0 last buffer len).1.length = freq0.length := by
    show (dc_block_filter _ _).length = _
    rw [dc_block_filter_length, deemphasize_filter_length, get_freq_values_length]
    omega
  rw [hlen, h]
  rfl

/-- C1 witness: the amended statement instantiated on the concrete 4-byte
buffer `[128, 128, 128, 127]`. -/
theorem demodulate_carry_is_dc_block_output_witness :
    (demodulate [0, 0] 0 [128, 128, 128, 127] 4).1 =
      dc_block_filter (deemphasize_filter (get_freq_values [0, 0]
        (i_samples_of [128, 128, 128, 127] 4)
        (q_samples_of [128, 128, 128, 127] 4) (4 / 2)) 0 (4 / 2)) (4 / 2) ∧
    (demodulate [0, 0] 0 [128, 128, 128, 127] 4).2 =
      (demodulate [0, 0] 0 [128, 128, 128, 127] 4).1.getD
        ((demodulate [0, 0] 0 [128, 128, 128, 127] 4).1.length - 1) 0 :=
  demodulate_carry_is_dc_block_output [0, 0] 0 [128, 128, 128, 127] 4 (by rfl) (by decide)

/-- C2: `get_freq_values` writes only indices `0` through `N-2` of the
`freq_samples` buffer (every element from index `N-1` on keeps its
pre-existing value), yet the carry returned by `demodulate` is computed
from index `N-1`: on the same raw buffer, two different stale values in
slot `N-1 = 1` yield two different carries, so the carry depends on a
buffer element the discriminator did not produce for the current buffer. -/
theorem stale_final_sample :
    (∀ (freq0 ii qq : List ℝ) (N : ℕ),
      (get_freq_values freq0 ii qq N).drop (N - 1) = freq0.drop (N - 1)) ∧
    (demodulate [0, 41] 0 [128, 128, 128, 127] 4).2 ≠
      (demodulate [0, 0] 0 [128, 128, 128, 127] 4).2 := by
  constructor
  · intro freq0 ii qq N
    calc (freq_values ii qq N ++ freq0.drop (N - 1)).drop (N - 1)
        = (freq_values ii qq N ++ freq0.drop (N - 1)).drop (freq_values ii qq N).length := by
          rw [freq_values_length]
      _ = freq0.drop (N - 1) := List.drop_left _ _
  · rw [demod4_carry 41, demod4_carry 0]
    intro h
    have hα : alpha = 0 := by linear_combination h / 41
    exact absurd hα (ne_of_gt alpha_pos)

/-- C10: `demodulate` performs no validation of the buffer length: called
with the malformed odd length 5 it runs the full pipeline on
`floor(5/2) = 2` I/Q pairs and returns the same result as on the
truncated even-length buffer, instead of rejecting the buffer. -/
theorem no_length_validation :
    demodulate [0, 0] 0 [128, 128, 128, 127, 200] 5 =
      demodulate [0, 0] 0 [128, 128, 128, 127] 4 := by
  simp [demodulate, i_samples_of, q_samples_of, get_freq_values, freq_values, freq_of,
    deemphasize_filter, dc_block_filter, deemph_go, dc_go, convert_value, List.range_succ]

end FMrec

end
